import Mathlib

/-!
Shallow embedding of `src/MinersLib/Farm.cpp` (rhminer): the Farm orchestrator —
work distribution, pool lifecycle, dead-miner detection, telemetry aggregation,
the asynchronous submission pipeline, and the consecutive-rejection circuit
breaker.

Machine integers are modelled as `Nat` with explicit reduction modulo `2^w`
where the C++ width matters (`U32` counters, `U64` timestamps).  The fatal
`exit(0)` / `RHMINER_EXIT_APP` terminations are modelled as a sticky `exited`
flag on the farm state.  Functions that read the wall clock
(`TimeGetMilliSec()`) take the current time as an explicit `now` argument.
The per-submission thread of `submitProof` is modelled sequentially: the part
of the thread body that runs after the `started` hand-off is the separate
step `submitThreadFinish`.
-/

namespace RhminerFarm

/-- Unsigned 64-bit subtraction `a - b` as the C++ `U64` difference computes it
(two's-complement wraparound), for `a b < 2^64`. -/
def u64sub (a b : Nat) : Nat := (a + 2 ^ 64 - b) % 2 ^ 64

/-- A work package: an uninterpreted payload plus an identity token
(`corelib/PascalWork`). -/
structure PascalWork where
  token : Nat
  payload : Nat
deriving DecidableEq

/-- Modelled from the spec: `PascalWork::IsSame` (corelib/PascalWork.cpp is not
under src/) — two packages are "the same work" iff their identity tokens
match. -/
def PascalWork.IsSame (a b : PascalWork) : Bool := a.token == b.token

/-- A worker handle (`Miner`).  The Miner class itself is not under src/; its
fields model the worker-facing contract Farm.cpp uses: current work, lifecycle
flags, platform kind, absolute device index, raw hash counter and
temperature/fan telemetry. -/
structure Miner where
  work : Option PascalWork
  stopped : Bool
  initializing : Bool
  platformIsCPU : Bool
  absoluteIndex : Nat
  relIndex : Nat
  paused : Bool
  hashCount : Nat
  temp : Nat
  fan : Nat
deriving DecidableEq

/-- Modelled from the spec: `Miner::SetWork` installs the broadcast package on
the worker and resumes it if it was paused. -/
def Miner.SetWork (m : Miner) (w : PascalWork) : Miner :=
  { m with work := some w, paused := false }

/-- Modelled from the spec: `Miner::InitFromFarm` registers the zero-based
pool-relative index, distinct from the absolute device index. -/
def Miner.InitFromFarm (m : Miner) (poolIndex : Nat) : Miner :=
  { m with relIndex := poolIndex }

/-- Modelled from the spec: `Miner::StartWorking` starts the worker thread;
workers start paused awaiting a work package.  No further farm-visible state
in this model. -/
def Miner.StartWorking (m : Miner) : Miner := m

/-- Modelled from the spec: `SolutionStats` (corelib, not under src/) — a
mapping from absolute device index to accepted and rejected counts. -/
structure SolutionStats where
  acceptedCount : Nat → Nat
  rejectedCount : Nat → Nat

/-- Record one accepted solution for device `i`. -/
def SolutionStats.accepted (s : SolutionStats) (i : Nat) : SolutionStats :=
  { s with acceptedCount := fun j => if j = i then s.acceptedCount j + 1 else s.acceptedCount j }

/-- Record one rejected solution for device `i`. -/
def SolutionStats.rejected (s : SolutionStats) (i : Nat) : SolutionStats :=
  { s with rejectedCount := fun j => if j = i then s.rejectedCount j + 1 else s.rejectedCount j }

def SolutionStats.getAccepted (s : SolutionStats) (i : Nat) : Nat := s.acceptedCount i

def SolutionStats.getRejected (s : SolutionStats) (i : Nat) : Nat := s.rejectedCount i

/-- Modelled from the spec: `SolutionStats::Begin` — the stats are "reset only
at restart of mining"; `Farm::start` calls it before building the pool. -/
def SolutionStats.Begin (_s : SolutionStats) : SolutionStats :=
  { acceptedCount := fun _ => 0, rejectedCount := fun _ => 0 }

/-- The snapshot returned by `miningProgress` (`WorkingProgress`). -/
structure WorkingProgress where
  totalHashRate : Nat
  minersHasheRate : List Nat
  gpuGlobalIndex : List Nat
  acceptedShares : List Nat
  rejectedShares : List Nat
  temperature : List Nat
  fan : List Nat
  minersHasheRatePeak : List Nat
deriving DecidableEq

/-- The `m_farmData` block: installed work, solution stats, the circuit-breaker
counter and timestamp, the persisted peak store and the last stored
snapshot. -/
structure FarmData where
  work : Option PascalWork
  solutionStats : SolutionStats
  consecutiveRejectedCount : Nat
  lastRejectedTimeMS : Nat
  minersHasheRatePeak : List Nat
  progress : WorkingProgress

/-- The Farm orchestrator state.  `exited` models a fatal process
termination (`exit(0)` / `RHMINER_EXIT_APP`) and is sticky. -/
structure Farm where
  farmData : FarmData
  miners : List Miner
  isMining : Bool
  minersCount : Nat
  lastProgressTime : Nat
  submitID : Nat
  submiters : List (Nat × Bool)
  exited : Bool

/-- Modelled from the spec: `Farm::resetTimer` (Farm.h, not under src/) resets
the throughput-timing reference point used by the progress aggregator;
`miningProgress` treats a zero `m_lastProgressTime` as "unset". -/
def Farm.resetTimer (f : Farm) : Farm := { f with lastProgressTime := 0 }

/-- Function `Farm::SetWork` (Farm.cpp:23-43): if a package is installed and `IsSame`
as the new one, re-broadcast the installed package (resuming paused miners)
without touching the timer; otherwise install the new package, broadcast it,
and reset the throughput-timing reference. -/
def Farm.SetWork (f : Farm) (wp : PascalWork) : Farm :=
  match f.farmData.work with
  | some w =>
    if w.IsSame wp then
      { f with miners := f.miners.map (fun m => m.SetWork w) }
    else
      Farm.resetTimer
        { f with farmData := { f.farmData with work := some wp },
                 miners := f.miners.map (fun m => m.SetWork wp) }
  | none =>
      Farm.resetTimer
        { f with farmData := { f.farmData with work := some wp },
                 miners := f.miners.map (fun m => m.SetWork wp) }

/-- Function `Farm::internalStop` (Farm.cpp:174-184): no-op when not mining; otherwise
kill every miner, clear the pool and mark mining inactive. -/
def Farm.internalStop (f : Farm) : Farm :=
  if f.isMining = false then f
  else { f with miners := [], isMining := false }

/-- Function `Farm::DetectDeadMiners` (Farm.cpp:202-217): count stopped miners; when the
whole (non-empty) pool is stopped, tear it down via `internalStop` and report
`true`. -/
def Farm.DetectDeadMiners (f : Farm) : Farm × Bool :=
  let deadCount := (f.miners.filter (fun m => m.stopped)).length
  if f.miners.length = deadCount ∧ deadCount ≠ 0 then
    (f.internalStop, true)
  else
    (f, false)

/-- The per-miner instantaneous rate (Farm.cpp:237-238).  The source computes
`(U32)(U64)round(hcount / (float)(dt/1000.0f))` in `float`; modelled as
round-half-up integer division of `hcount * 1000` by `dt`, truncated to 32
bits.  `dt` is always ≥ 100 at the call site. -/
def minerRate (hcount dt : Nat) : Nat :=
  ((hcount * 1000 * 2 + dt) / (2 * dt)) % 2 ^ 32

/-- The clamped elapsed time of `miningProgress` (Farm.cpp:224-229): a zero
stored reference means "unset" (elapsed 0), the `U32` difference is clamped to
a floor of 100 ms. -/
def dtOf (f : Farm) (now : Nat) : Nat :=
  let lastT := if f.lastProgressTime = 0 then now else f.lastProgressTime
  let dt0 := (u64sub now lastT) % 2 ^ 32
  if dt0 < 100 then 100 else dt0

/-- The peak-store merge of `miningProgress` (Farm.cpp:258-270): clear the
store to zeros when its size differs from the snapshot, then take the
pointwise maximum with the snapshot rates. -/
def peakMerge (oldPeak rates : List Nat) : List Nat :=
  List.zipWith max
    (if oldPeak.length ≠ rates.length then rates.map (fun _ => 0) else oldPeak) rates

/-- Function `Farm::miningProgress` (Farm.cpp:219-274): compute the per-miner snapshot
over the clamped elapsed time, opportunistically tear down a fully-dead pool,
then merge the snapshot rates into the persisted peak store (clearing it to
zeros first if its size does not match), store and return the snapshot. -/
def Farm.miningProgress (f : Farm) (now : Nat) : Farm × WorkingProgress :=
  let dt := dtOf f now
  let deadCount := (f.miners.filter (fun m => m.stopped)).length
  let rates := f.miners.map (fun m => minerRate m.hashCount dt)
  let p : WorkingProgress :=
    { totalHashRate := rates.sum
      minersHasheRate := rates
      gpuGlobalIndex := f.miners.map (fun m => m.absoluteIndex)
      acceptedShares := f.miners.map (fun m => f.farmData.solutionStats.getAccepted m.absoluteIndex)
      rejectedShares := f.miners.map (fun m => f.farmData.solutionStats.getRejected m.absoluteIndex)
      temperature := f.miners.map (fun m => m.temp)
      fan := f.miners.map (fun m => m.fan)
      minersHasheRatePeak := [] }
  let f1 := { f with lastProgressTime := now }
  let f2 := if f1.miners.length = deadCount ∧ deadCount ≠ 0 then f1.internalStop else f1
  let newPeak := peakMerge f2.farmData.minersHasheRatePeak rates
  let pOut := { p with minersHasheRatePeak := newPeak }
  ({ f2 with farmData := { f2.farmData with minersHasheRatePeak := newPeak, progress := pOut } },
   pOut)

/-- The miner-class selector used by `Farm::start` (`GlobalMiningPreset`). -/
inductive CreatorClass where
  | ClassOpenCL
  | ClassNvidia
  | ClassCPU
deriving DecidableEq

/-- One entry of the device inventory `GpuManager::Gpus`.  The `gpuType` bit
tests `RHMINER_TEST_BIT(gpuType, GpuType_*)` are modelled as independent
boolean flags (the bit values live in headers not under src/). -/
structure GpuInfo where
  enabled : Bool
  initialized : Bool
  isNvidia : Bool
  isAmd : Bool
  isCpu : Bool
  deviceID : Nat
deriving DecidableEq

/-- The `createType` selection of Farm.cpp:83-93: NVIDIA → Nvidia class,
AMD → OpenCL class, CPU → CPU class, otherwise the OpenCL default. -/
def createTypeOf (g : GpuInfo) : CreatorClass :=
  if g.isNvidia then CreatorClass.ClassNvidia
  else if g.isAmd then CreatorClass.ClassOpenCL
  else if g.isCpu then CreatorClass.ClassCPU
  else CreatorClass.ClassOpenCL

/-- Modelled from the spec: `GlobalMiningPreset::CreateMiner` (not under src/)
constructs the worker handle for the device kind at the given absolute
(global) index; a fresh worker is initializing, paused and not stopped. -/
def CreateMiner (ct : CreatorClass) (globalIndex : Nat) : Miner :=
  { work := none
    stopped := false
    initializing := true
    platformIsCPU := decide (ct = CreatorClass.ClassCPU)
    absoluteIndex := globalIndex
    relIndex := 0
    paused := true
    hashCount := 0
    temp := 0
    fan := 0 }

/-- The allocation loop of `Farm::start` (Farm.cpp:76-107): walk the device
inventory with a running global index; an enabled AMD device is logged and
skipped (no kernel available); every other enabled device yields a new
miner. -/
def allocMiners (gpus : List GpuInfo) : List Miner :=
  gpus.enum.filterMap (fun gi =>
    if gi.2.enabled && !gi.2.isAmd then
      some (CreateMiner (createTypeOf gi.2) gi.1)
    else
      none)

/-- Function `Farm::start` (Farm.cpp:54-136).  Returns the new state and the C++ return
value.  `exitFlagRequested` models the global exit flag consulted by
`RHMINER_RETURN_ON_EXIT_FLAG_EX(false)` at the top of each allocation-loop
iteration.  A zero-size constructed pool is fatal (`exit(0)`, modelled as
`exited := true`; the paired return value is never observed in C++). -/
def Farm.start (f : Farm) (gpus : List GpuInfo) (exitFlagRequested : Bool) : Farm × Bool :=
  if f.isMining then (f, true)
  else
    let f1 := { f with farmData :=
      { f.farmData with solutionStats := f.farmData.solutionStats.Begin } }
    if f1.miners.isEmpty = false then (f1, true)
    else if exitFlagRequested && !gpus.isEmpty then (f1, false)
    else
      let newMiners := allocMiners gpus
      let registered := newMiners.enum.map (fun p => ((p.2.InitFromFarm p.1).StartWorking))
      let f2 := { f1 with miners := registered, minersCount := registered.length }
      if registered.length = 0 then
        ({ f2 with exited := true }, true)
      else
        (Farm.resetTimer { f2 with isMining := true }, true)

/-- A discovered solution (`SolutionSptr` payload + originating device). -/
structure Solution where
  deviceIndex : Nat
  payload : Nat
deriving DecidableEq

/-- The registration `m_submiters[id] = (thread, false)` on the `std::map` keyed by submission id:
overwrite the entry if the key is present, insert it otherwise.  The thread
handle is abstracted away; only the completion flag remains. -/
def mapInsert (id : Nat) (v : Bool) (subs : List (Nat × Bool)) : List (Nat × Bool) :=
  if subs.any (fun r => r.1 == id) then
    subs.map (fun r => if r.1 == id then (r.1, v) else r)
  else
    subs ++ [(id, v)]

/-- The completion marking at the end of the submission thread
(Farm.cpp:339-344): look the id up in `m_submiters` and set its flag when
found. -/
def markSubmitterComplete (id : Nat) (subs : List (Nat × Bool)) : List (Nat × Bool) :=
  subs.map (fun r => if r.1 == id then (r.1, true) else r)

/-- Function `Farm::PurgeThreadInternal` (Farm.cpp:361-384): reclaim (delete the thread
of) every completed record and retain the in-flight ones. -/
def Farm.PurgeThreadInternal (f : Farm) : Farm :=
  { f with submiters := f.submiters.filter (fun r => !r.2) }

/-- The caller-side part of `Farm::submitProof` (Farm.cpp:302-359): allocate
the next submission id (`U32`), launch the submission thread, wait for its
`started` hand-off, register the record as in-flight, and purge old
records.  The dispatched thread's tail is `submitThreadFinish`. -/
def Farm.submitProof (f : Farm) (_sol : Solution) : Farm :=
  let id := (f.submitID + 1) % 2 ^ 32
  Farm.PurgeThreadInternal
    { f with submitID := id, submiters := mapInsert id false f.submiters }

/-- The tail of the dispatched submission thread (Farm.cpp:313-346) after the
`started` hand-off: invoke the acceptor callback with any exception contained
(`catch (...)` just logs), then mark the record complete.  Both outcomes of
the acceptor continue identically. -/
def Farm.submitThreadFinish (f : Farm) (onSolutionFound : Solution → Except String Unit)
    (sol : Solution) (id : Nat) : Farm :=
  match onSolutionFound sol with
  | Except.ok _ => { f with submiters := markSubmitterComplete id f.submiters }
  | Except.error _ => { f with submiters := markSubmitterComplete id f.submiters }

/-- Function `Farm::stop` (Farm.cpp:162-172): purge the submission records, then tear
the pool down. -/
def Farm.stop (f : Farm) : Farm :=
  Farm.internalStop (Farm.PurgeThreadInternal f)

/-- Function `Farm::AddAcceptedSolution` (Farm.cpp:387-391): bump the accepted count and
unconditionally reset the consecutive-rejection counter. -/
def Farm.AddAcceptedSolution (f : Farm) (gpuAbsIndex : Nat) : Farm :=
  { f with farmData := { f.farmData with
      solutionStats := f.farmData.solutionStats.accepted gpuAbsIndex,
      consecutiveRejectedCount := 0 } }

/-- Function `Farm::AddRejectedSolution` (Farm.cpp:393-411): bump the rejected count.
If a previous rejection is recorded (non-zero timestamp) and it happened more
than 5 minutes ago, reset the consecutive counter to zero (leaving the
timestamp untouched).  Otherwise increment the `U32` counter, record `now`,
and terminate fatally when the counter reaches the configured maximum
`g_maxConsecutiveSubmitErrors`. -/
def Farm.AddRejectedSolution (f : Farm) (gpuAbsIndex : Nat) (now : Nat)
    (gMaxConsecutiveSubmitErrors : Nat) : Farm :=
  let fd := { f.farmData with solutionStats := f.farmData.solutionStats.rejected gpuAbsIndex }
  if fd.lastRejectedTimeMS ≠ 0 ∧ u64sub now fd.lastRejectedTimeMS > 5 * 60000 then
    { f with farmData := { fd with consecutiveRejectedCount := 0 } }
  else
    let c := (fd.consecutiveRejectedCount + 1) % 2 ^ 32
    { f with
      farmData := { fd with consecutiveRejectedCount := c, lastRejectedTimeMS := now },
      exited := f.exited || decide (c ≥ gMaxConsecutiveSubmitErrors) }

/-- Fold a list of rejection times through `AddRejectedSolution`. -/
def Farm.rejectAll (f : Farm) (gpuAbsIndex gMax : Nat) (ts : List Nat) : Farm :=
  ts.foldl (fun acc t => acc.AddRejectedSolution gpuAbsIndex t gMax) f

/-- Empty solution-stats store. -/
def emptyStats : SolutionStats :=
  { acceptedCount := fun _ => 0, rejectedCount := fun _ => 0 }

/-- Empty progress snapshot. -/
def emptyProgress : WorkingProgress :=
  { totalHashRate := 0, minersHasheRate := [], gpuGlobalIndex := [],
    acceptedShares := [], rejectedShares := [], temperature := [], fan := [],
    minersHasheRatePeak := [] }

/-- A fresh farm at session start: nothing mining, no work, zeroed circuit
breaker, empty pools and stores. -/
def freshFarm : Farm :=
  { farmData :=
      { work := none, solutionStats := emptyStats, consecutiveRejectedCount := 0,
        lastRejectedTimeMS := 0, minersHasheRatePeak := [], progress := emptyProgress }
    miners := []
    isMining := false
    minersCount := 0
    lastProgressTime := 0
    submitID := 0
    submiters := []
    exited := false }

/-- A concrete running (non-stopped) miner used in witnesses. -/
def mkMiner (absIdx hash : Nat) : Miner :=
  { work := none, stopped := false, initializing := false, platformIsCPU := false,
    absoluteIndex := absIdx, relIndex := 0, paused := false,
    hashCount := hash, temp := 0, fan := 0 }

/-- A concrete stopped miner used in witnesses. -/
def mkStoppedMiner (absIdx : Nat) : Miner :=
  { work := none, stopped := true, initializing := false, platformIsCPU := false,
    absoluteIndex := absIdx, relIndex := 0, paused := false,
    hashCount := 0, temp := 0, fan := 0 }

/-! ## Helper lemmas -/

/-- Unsigned 64-bit subtraction agrees with truncated `Nat` subtraction when no
wraparound occurs. -/
theorem u64sub_of_le (a b : Nat) (hba : b ≤ a) (ha : a < 2 ^ 64) :
    u64sub a b = a - b := by
  unfold u64sub
  have h1 : a + 2 ^ 64 - b = (a - b) + 2 ^ 64 := by omega
  rw [h1, Nat.add_mod_right, Nat.mod_eq_of_lt (by omega)]

/-! ## Claim C1 -/

/-- C1 counterexample: on a fresh session the very first call to
`AddRejectedSolution` takes the increment branch and leaves the
consecutive-rejection counter at 1, not 0 as the claim states. -/
theorem firstRejection_increments_counterexample :
    (freshFarm.AddRejectedSolution 0 1000 10).farmData.consecutiveRejectedCount = 1 ∧
    ¬ (freshFarm.AddRejectedSolution 0 1000 10).farmData.consecutiveRejectedCount = 0 := by
  constructor <;> decide

/-- C1 (amended): `AddRejectedSolution` resets the consecutive-rejection
counter to zero exactly when a previous rejection is recorded (non-zero
stored timestamp) and it happened more than 5 minutes before this call;
otherwise — including the first rejection of the session — the counter is
incremented by one (as a 32-bit unsigned value). -/
theorem addRejectedSolution_counter_spec (f : Farm) (g now gmax : Nat) :
    (f.AddRejectedSolution g now gmax).farmData.consecutiveRejectedCount =
      if f.farmData.lastRejectedTimeMS ≠ 0 ∧
          u64sub now f.farmData.lastRejectedTimeMS > 5 * 60000 then 0
      else (f.farmData.consecutiveRejectedCount + 1) % 2 ^ 32 := by
  unfold Farm.AddRejectedSolution
  by_cases h : f.farmData.lastRejectedTimeMS ≠ 0 ∧
      u64sub now f.farmData.lastRejectedTimeMS > 5 * 60000
  · simp [h]
  · simp [h]

/-! ## Claim C2 -/

/-- The C2 scenario after the first rejection (t = 0, fresh session). -/
def c2AfterFirst : Farm := freshFarm.AddRejectedSolution 0 0 10

/-- The C2 scenario after the second rejection (t = 60 s). -/
def c2AfterSecond : Farm := c2AfterFirst.AddRejectedSolution 0 60000 10

/-- The C2 scenario after the third rejection (6 minutes after the second). -/
def c2AfterThird : Farm := c2AfterSecond.AddRejectedSolution 0 420000 10

/-- C2 counterexample: in the sequence reject at t=0, t=60s, t=60s+6min, the
counters are 1, 2 and then 0 — the quiet-gap branch resets the counter to
zero and does not count the current rejection, so the third value is not 1 as
claimed. -/
theorem rejectionTrace_counterexample :
    c2AfterFirst.farmData.consecutiveRejectedCount = 1 ∧
    c2AfterSecond.farmData.consecutiveRejectedCount = 2 ∧
    c2AfterThird.farmData.consecutiveRejectedCount = 0 ∧
    ¬ c2AfterThird.farmData.consecutiveRejectedCount = 1 := by
  refine ⟨by decide, by decide, by decide, by decide⟩

/-- C2 (amended): starting from a fresh session, three `AddRejectedSolution`
calls at t=0, t=60s, and 6 minutes after the second leave the
consecutive-rejection counter at 1, 2 and 0 respectively — the third call
takes the quiet-gap branch, which resets the counter to zero without counting
the current rejection. -/
theorem rejectionTrace_spec :
    c2AfterFirst.farmData.consecutiveRejectedCount = 1 ∧
    c2AfterSecond.farmData.consecutiveRejectedCount = 2 ∧
    c2AfterThird.farmData.consecutiveRejectedCount = 0 := by
  refine ⟨by decide, by decide, by decide⟩

/-! ## Step characterizations of the circuit breaker (shared helpers) -/

/-- When the quiet-gap condition holds, `AddRejectedSolution` zeroes the
counter and leaves the stored timestamp and the exit flag untouched. -/
theorem addRejected_reset_state (f : Farm) (g now gmax : Nat)
    (h : f.farmData.lastRejectedTimeMS ≠ 0 ∧
      u64sub now f.farmData.lastRejectedTimeMS > 5 * 60000) :
    (f.AddRejectedSolution g now gmax).farmData.consecutiveRejectedCount = 0 ∧
    (f.AddRejectedSolution g now gmax).farmData.lastRejectedTimeMS =
      f.farmData.lastRejectedTimeMS ∧
    (f.AddRejectedSolution g now gmax).exited = f.exited := by
  unfold Farm.AddRejectedSolution
  simp [h]

/-- When the quiet-gap condition fails (first rejection, or gap within 5
minutes), `AddRejectedSolution` increments the 32-bit counter, stores `now`,
and trips the fatal exit exactly when the new counter reaches the
maximum. -/
theorem addRejected_inc_state (f : Farm) (g now gmax : Nat)
    (h : ¬ (f.farmData.lastRejectedTimeMS ≠ 0 ∧
      u64sub now f.farmData.lastRejectedTimeMS > 5 * 60000)) :
    (f.AddRejectedSolution g now gmax).farmData.consecutiveRejectedCount =
      (f.farmData.consecutiveRejectedCount + 1) % 2 ^ 32 ∧
    (f.AddRejectedSolution g now gmax).farmData.lastRejectedTimeMS = now ∧
    (f.AddRejectedSolution g now gmax).exited =
      (f.exited ||
        decide ((f.farmData.consecutiveRejectedCount + 1) % 2 ^ 32 ≥ gmax)) := by
  unfold Farm.AddRejectedSolution
  simp [h]

/-- Operation `AddAcceptedSolution` zeroes the counter and leaves the rejection
timestamp and the exit flag untouched. -/
theorem addAccepted_state (f : Farm) (g : Nat) :
    (f.AddAcceptedSolution g).farmData.consecutiveRejectedCount = 0 ∧
    (f.AddAcceptedSolution g).farmData.lastRejectedTimeMS =
      f.farmData.lastRejectedTimeMS ∧
    (f.AddAcceptedSolution g).exited = f.exited := by
  unfold Farm.AddAcceptedSolution
  simp

/-! ## Claim C3 -/

/-- C3: with `g_maxConsecutiveSubmitErrors = 3`, three rejections all within
the 5-minute quiet window are fatal exactly on the third call; an accepted
solution between any two of the rejections resets the counter so no fatal
termination occurs. -/
theorem circuitBreaker_threshold_spec (g1 g2 g3 a t1 t2 t3 : Nat)
    (h12 : t1 ≤ t2) (h23 : t2 ≤ t3) (hb : t3 < 2 ^ 64)
    (hg12 : t2 - t1 ≤ 300000) (hg23 : t3 - t2 ≤ 300000) :
    ((freshFarm.AddRejectedSolution g1 t1 3).AddRejectedSolution g2 t2 3).exited = false ∧
    (((freshFarm.AddRejectedSolution g1 t1 3).AddRejectedSolution g2 t2 3).AddRejectedSolution
        g3 t3 3).exited = true ∧
    ((((freshFarm.AddRejectedSolution g1 t1 3).AddAcceptedSolution a).AddRejectedSolution
        g2 t2 3).AddRejectedSolution g3 t3 3).exited = false ∧
    ((((freshFarm.AddRejectedSolution g1 t1 3).AddRejectedSolution g2 t2 3).AddAcceptedSolution
        a).AddRejectedSolution g3 t3 3).exited = false := by
  have hb2 : t2 < 2 ^ 64 := lt_of_le_of_lt h23 hb
  -- step 1: first rejection (timestamp is 0, so the increment branch runs)
  obtain ⟨h1c, h1t, h1x⟩ :=
    addRejected_inc_state freshFarm g1 t1 3 (fun h => h.1 rfl)
  set f1 := freshFarm.AddRejectedSolution g1 t1 3 with hf1
  have h1c' : f1.farmData.consecutiveRejectedCount = 1 := by rw [h1c]; decide
  have h1x' : f1.exited = false := by rw [h1x]; decide
  -- the second rejection is within the window of the first
  have hnc2 : ¬ (f1.farmData.lastRejectedTimeMS ≠ 0 ∧
      u64sub t2 f1.farmData.lastRejectedTimeMS > 5 * 60000) := by
    rw [h1t]
    intro h
    rw [u64sub_of_le t2 t1 h12 hb2] at h
    omega
  obtain ⟨h2c, h2t, h2x⟩ := addRejected_inc_state f1 g2 t2 3 hnc2
  set f2 := f1.AddRejectedSolution g2 t2 3 with hf2
  have h2c' : f2.farmData.consecutiveRejectedCount = 2 := by
    rw [h2c, h1c']; decide
  have h2x' : f2.exited = false := by rw [h2x, h1x', h1c']; decide
  -- the third rejection is within the window of the second
  have hnc3 : ¬ (f2.farmData.lastRejectedTimeMS ≠ 0 ∧
      u64sub t3 f2.farmData.lastRejectedTimeMS > 5 * 60000) := by
    rw [h2t]
    intro h
    rw [u64sub_of_le t3 t2 h23 hb] at h
    omega
  obtain ⟨h3c, h3t, h3x⟩ := addRejected_inc_state f2 g3 t3 3 hnc3
  have h3x' : (f2.AddRejectedSolution g3 t3 3).exited = true := by
    rw [h3x, h2x', h2c']; decide
  -- variant A: accepted solution between the first and second rejection
  obtain ⟨ha1c, ha1t, ha1x⟩ := addAccepted_state f1 a
  set fa := f1.AddAcceptedSolution a with hfa
  have hnca2 : ¬ (fa.farmData.lastRejectedTimeMS ≠ 0 ∧
      u64sub t2 fa.farmData.lastRejectedTimeMS > 5 * 60000) := by
    rw [ha1t, h1t]
    intro h
    rw [u64sub_of_le t2 t1 h12 hb2] at h
    omega
  obtain ⟨ha2c, ha2t, ha2x⟩ := addRejected_inc_state fa g2 t2 3 hnca2
  set fa2 := fa.AddRejectedSolution g2 t2 3 with hfa2
  have ha2c' : fa2.farmData.consecutiveRejectedCount = 1 := by
    rw [ha2c, ha1c]; decide
  have ha2x' : fa2.exited = false := by rw [ha2x, ha1x, h1x', ha1c]; decide
  have hnca3 : ¬ (fa2.farmData.lastRejectedTimeMS ≠ 0 ∧
      u64sub t3 fa2.farmData.lastRejectedTimeMS > 5 * 60000) := by
    rw [ha2t]
    intro h
    rw [u64sub_of_le t3 t2 h23 hb] at h
    omega
  obtain ⟨ha3c, ha3t, ha3x⟩ := addRejected_inc_state fa2 g3 t3 3 hnca3
  have ha3x' : (fa2.AddRejectedSolution g3 t3 3).exited = false := by
    rw [ha3x, ha2x', ha2c']; decide
  -- variant B: accepted solution between the second and third rejection
  obtain ⟨hb1c, hb1t, hb1x⟩ := addAccepted_state f2 a
  set fb := f2.AddAcceptedSolution a with hfb
  have hncb3 : ¬ (fb.farmData.lastRejectedTimeMS ≠ 0 ∧
      u64sub t3 fb.farmData.lastRejectedTimeMS > 5 * 60000) := by
    rw [hb1t, h2t]
    intro h
    rw [u64sub_of_le t3 t2 h23 hb] at h
    omega
  obtain ⟨hb3c, hb3t, hb3x⟩ := addRejected_inc_state fb g3 t3 3 hncb3
  have hb3x' : (fb.AddRejectedSolution g3 t3 3).exited = false := by
    rw [hb3x, hb1x, h2x', hb1c]; decide
  exact ⟨h2x', h3x', ha3x', hb3x'⟩

/-- C3 witness: the circuit-breaker theorem instantiated at the concrete
rejection times 1000 ms, 2000 ms and 3000 ms. -/
theorem circuitBreaker_threshold_witness :
    (1000 : Nat) ≤ 2000 ∧ (2000 : Nat) ≤ 3000 ∧ (3000 : Nat) < 2 ^ 64 ∧
    ((freshFarm.AddRejectedSolution 0 1000 3).AddRejectedSolution 1 2000 3).exited = false ∧
    (((freshFarm.AddRejectedSolution 0 1000 3).AddRejectedSolution 1 2000 3).AddRejectedSolution
        2 3000 3).exited = true ∧
    ((((freshFarm.AddRejectedSolution 0 1000 3).AddAcceptedSolution 0).AddRejectedSolution
        1 2000 3).AddRejectedSolution 2 3000 3).exited = false ∧
    ((((freshFarm.AddRejectedSolution 0 1000 3).AddRejectedSolution 1 2000 3).AddAcceptedSolution
        0).AddRejectedSolution 2 3000 3).exited = false := by
  have h := circuitBreaker_threshold_spec 0 1 2 0 1000 2000 3000
    (by decide) (by decide) (by decide) (by decide) (by decide)
  exact ⟨by decide, by decide, by decide, h.1, h.2.1, h.2.2.1, h.2.2.2⟩

/-! ## Claim C4 -/

/-- Once the stored rejection timestamp `L` is stale (every coming rejection
time is more than 5 minutes past it), any run of further rejections keeps
taking the reset branch: the timestamp stays `L` and the counter stays 0. -/
theorem rejectAll_stale (g gmax L : Nat) (hL : L ≠ 0) :
    ∀ (ts : List Nat) (f : Farm),
      f.farmData.lastRejectedTimeMS = L →
      f.farmData.consecutiveRejectedCount = 0 →
      (∀ s ∈ ts, L + 300000 < s ∧ s < 2 ^ 64) →
      (Farm.rejectAll f g gmax ts).farmData.lastRejectedTimeMS = L ∧
      (Farm.rejectAll f g gmax ts).farmData.consecutiveRejectedCount = 0 := by
  intro ts
  induction ts with
  | nil => intro f hfl hfc _; exact ⟨hfl, hfc⟩
  | cons s rest ih =>
    intro f hfl hfc hall
    obtain ⟨hs, hsb⟩ := hall s (List.mem_cons_self s rest)
    have hcond : f.farmData.lastRejectedTimeMS ≠ 0 ∧
        u64sub s f.farmData.lastRejectedTimeMS > 5 * 60000 := by
      rw [hfl]
      refine ⟨hL, ?_⟩
      rw [u64sub_of_le s L (by omega) hsb]
      omega
    obtain ⟨hrc, hrt, _⟩ := addRejected_reset_state f g s gmax hcond
    have hstep : Farm.rejectAll f g gmax (s :: rest) =
        Farm.rejectAll (f.AddRejectedSolution g s gmax) g gmax rest := rfl
    rw [hstep]
    exact ih (f.AddRejectedSolution g s gmax) (by rw [hrt, hfl]) hrc
      (fun x hx => hall x (List.mem_cons_of_mem s hx))

/-- C4: `AddRejectedSolution` stores the current time only on the increment
branch; a quiet-gap reset call leaves the timestamp unchanged, so with a
monotone clock every subsequent rejection compares against the same stale
timestamp, takes the reset branch too, and the counter never increments again
for the rest of the session. -/
theorem staleTimestamp_lockout_spec (f : Farm) (g gmax t : Nat) (ts : List Nat)
    (hL : f.farmData.lastRejectedTimeMS ≠ 0)
    (hLt : f.farmData.lastRejectedTimeMS ≤ t) (ht : t < 2 ^ 64)
    (hgap : t - f.farmData.lastRejectedTimeMS > 5 * 60000)
    (hts : ∀ s ∈ ts, t ≤ s ∧ s < 2 ^ 64) :
    (f.AddRejectedSolution g t gmax).farmData.lastRejectedTimeMS =
      f.farmData.lastRejectedTimeMS ∧
    (f.AddRejectedSolution g t gmax).farmData.consecutiveRejectedCount = 0 ∧
    (Farm.rejectAll (f.AddRejectedSolution g t gmax) g gmax ts).farmData.lastRejectedTimeMS =
      f.farmData.lastRejectedTimeMS ∧
    (Farm.rejectAll (f.AddRejectedSolution g t gmax) g gmax ts).farmData.consecutiveRejectedCount
      = 0 ∧
    (∀ (f2 : Farm) (n2 : Nat),
      ¬ (f2.farmData.lastRejectedTimeMS ≠ 0 ∧
          u64sub n2 f2.farmData.lastRejectedTimeMS > 5 * 60000) →
      (f2.AddRejectedSolution g n2 gmax).farmData.lastRejectedTimeMS = n2) := by
  have hcond : f.farmData.lastRejectedTimeMS ≠ 0 ∧
      u64sub t f.farmData.lastRejectedTimeMS > 5 * 60000 := by
    refine ⟨hL, ?_⟩
    rw [u64sub_of_le t f.farmData.lastRejectedTimeMS hLt ht]
    omega
  obtain ⟨hrc, hrt, _⟩ := addRejected_reset_state f g t gmax hcond
  have hall : ∀ s ∈ ts, f.farmData.lastRejectedTimeMS + 300000 < s ∧ s < 2 ^ 64 := by
    intro s hs
    obtain ⟨h1, h2⟩ := hts s hs
    exact ⟨by omega, h2⟩
  obtain ⟨hfold1, hfold2⟩ := rejectAll_stale g gmax f.farmData.lastRejectedTimeMS hL ts
    (f.AddRejectedSolution g t gmax) hrt hrc hall
  exact ⟨hrt, hrc, hfold1, hfold2,
    fun f2 n2 h2 => (addRejected_inc_state f2 g n2 gmax h2).2.1⟩

/-- The concrete farm used by the C4 witness: a previous rejection is on
record at 1000 ms with a non-zero consecutive count. -/
def c4Farm : Farm :=
  { freshFarm with farmData :=
      { freshFarm.farmData with lastRejectedTimeMS := 1000, consecutiveRejectedCount := 7 } }

/-- C4 witness: the stale-timestamp theorem instantiated at a rejection at
400000 ms followed by rejections at 400001 ms and 1000000 ms. -/
theorem staleTimestamp_lockout_witness :
    c4Farm.farmData.lastRejectedTimeMS ≠ 0 ∧
    c4Farm.farmData.lastRejectedTimeMS ≤ 400000 ∧
    (400000 : Nat) - c4Farm.farmData.lastRejectedTimeMS > 5 * 60000 ∧
    (c4Farm.AddRejectedSolution 0 400000 10).farmData.lastRejectedTimeMS = 1000 ∧
    (c4Farm.AddRejectedSolution 0 400000 10).farmData.consecutiveRejectedCount = 0 ∧
    (Farm.rejectAll (c4Farm.AddRejectedSolution 0 400000 10) 0 10
        [400001, 1000000]).farmData.lastRejectedTimeMS = 1000 ∧
    (Farm.rejectAll (c4Farm.AddRejectedSolution 0 400000 10) 0 10
        [400001, 1000000]).farmData.consecutiveRejectedCount = 0 := by
  have h := staleTimestamp_lockout_spec c4Farm 0 10 400000 [400001, 1000000]
    (by decide) (by decide) (by decide) (by decide) (by decide)
  exact ⟨by decide, by decide, by decide, h.1, h.2.1, h.2.2.1, h.2.2.2.1⟩

/-! ## Claim C5 -/

/-- C5: when the installed package is `IsSame` as the new one, `SetWork`
re-broadcasts the installed package to every worker and leaves the installed
package and the throughput-timing reference untouched; when the tokens differ
or no package is installed, it installs the new package, broadcasts it, and
resets the throughput-timing reference. -/
theorem setWork_identity_spec (f : Farm) (wp : PascalWork) :
    (∀ w : PascalWork, f.farmData.work = some w → w.IsSame wp = true →
      (f.SetWork wp).farmData.work = f.farmData.work ∧
      (f.SetWork wp).lastProgressTime = f.lastProgressTime ∧
      (f.SetWork wp).miners = f.miners.map (fun m => m.SetWork w)) ∧
    ((∀ w : PascalWork, f.farmData.work = some w → w.IsSame wp = false) →
      (f.SetWork wp).farmData.work = some wp ∧
      (f.SetWork wp).miners = f.miners.map (fun m => m.SetWork wp) ∧
      (f.SetWork wp).lastProgressTime = 0) := by
  constructor
  · intro w hw hsame
    unfold Farm.SetWork
    rw [hw]
    simp [hsame, hw]
  · intro hdiff
    unfold Farm.SetWork
    cases hwork : f.farmData.work with
    | none => simp [Farm.resetTimer]
    | some w =>
      have hs := hdiff w hwork
      simp [hs, Farm.resetTimer]

/-- The installed package of the C5 witness farm. -/
def c5Work : PascalWork := { token := 1, payload := 10 }

/-- A package with the same identity token but different payload. -/
def c5SameWork : PascalWork := { token := 1, payload := 20 }

/-- A package with a different identity token. -/
def c5DiffWork : PascalWork := { token := 2, payload := 30 }

/-- The C5 witness farm: `c5Work` installed, a non-zero timing reference and
one worker. -/
def c5Farm : Farm :=
  { freshFarm with
      farmData := { freshFarm.farmData with work := some c5Work },
      lastProgressTime := 777,
      miners := [mkMiner 0 5] }

/-- C5 witness: re-announcing same-token work keeps the installed package and
the timing reference; different-token work replaces the package and zeroes
the timing reference. -/
theorem setWork_identity_witness :
    ((c5Farm.SetWork c5SameWork).lastProgressTime = 777 ∧
      (c5Farm.SetWork c5SameWork).farmData.work = some c5Work) ∧
    ((c5Farm.SetWork c5DiffWork).lastProgressTime = 0 ∧
      (c5Farm.SetWork c5DiffWork).farmData.work = some c5DiffWork) := by
  have h1 := (setWork_identity_spec c5Farm c5SameWork).1 c5Work rfl (by decide)
  have h2 := (setWork_identity_spec c5Farm c5DiffWork).2 (fun w hw => by
    have hw2 : some c5Work = some w := hw
    injection hw2 with h
    subst h
    decide)
  exact ⟨⟨h1.2.1, h1.1⟩, ⟨h2.2.2, h2.1⟩⟩

/-! ## Claim C6 -/

/-- The total-death trigger used by both `DetectDeadMiners` and
`miningProgress` — "every miner counted stopped, and at least one counted" —
holds exactly for a non-empty pool whose members are all stopped. -/
theorem deadCondition_iff (l : List Miner) :
    (l.length = (l.filter (fun m => m.stopped)).length ∧
        (l.filter (fun m => m.stopped)).length ≠ 0) ↔
      (l ≠ [] ∧ ∀ m ∈ l, m.stopped = true) := by
  constructor
  · rintro ⟨h1, h2⟩
    refine ⟨?_, ?_⟩
    · intro hnil
      apply h2
      rw [hnil]
      rfl
    · have := List.filter_length_eq_length.mp h1.symm
      simpa using this
  · rintro ⟨h1, h2⟩
    have hlen : (l.filter (fun m => m.stopped)).length = l.length :=
      List.filter_length_eq_length.mpr (by simpa using h2)
    refine ⟨hlen.symm, ?_⟩
    rw [hlen]
    intro h0
    exact h1 (List.length_eq_zero.mp h0)

/-- The farm component of `miningProgress` keeps the pool and mining flag of
the intermediate state: torn down when the total-death trigger fired,
untouched otherwise. -/
theorem miningProgress_pool (f : Farm) (now : Nat) :
    (f.miningProgress now).1.miners =
      (if f.miners.length = (f.miners.filter (fun m => m.stopped)).length ∧
          (f.miners.filter (fun m => m.stopped)).length ≠ 0 then
        (Farm.internalStop { f with lastProgressTime := now }).miners
      else f.miners) ∧
    (f.miningProgress now).1.isMining =
      (if f.miners.length = (f.miners.filter (fun m => m.stopped)).length ∧
          (f.miners.filter (fun m => m.stopped)).length ≠ 0 then
        (Farm.internalStop { f with lastProgressTime := now }).isMining
      else f.isMining) := by
  unfold Farm.miningProgress
  dsimp only
  constructor
  · split <;> rfl
  · split <;> rfl

/-- C6: `DetectDeadMiners` reports `true` exactly when the pool is non-empty
and every worker reports stopped; it then tears the pool down (when mining is
active), and `miningProgress` performs the same teardown under the same
trigger; an empty pool is never treated as dead by either path, and a pool
with at least one live worker is left untouched. -/
theorem detectDeadMiners_spec (f : Farm) (now : Nat) :
    ((f.DetectDeadMiners).2 = true ↔
      (f.miners ≠ [] ∧ ∀ m ∈ f.miners, m.stopped = true)) ∧
    (f.isMining = true → (f.DetectDeadMiners).2 = true →
      (f.DetectDeadMiners).1.miners = [] ∧ (f.DetectDeadMiners).1.isMining = false) ∧
    (f.miners = [] → f.DetectDeadMiners = (f, false)) ∧
    (f.isMining = true → f.miners ≠ [] → (∀ m ∈ f.miners, m.stopped = true) →
      (f.miningProgress now).1.miners = [] ∧ (f.miningProgress now).1.isMining = false) ∧
    (f.miners = [] →
      (f.miningProgress now).1.miners = [] ∧
      (f.miningProgress now).1.isMining = f.isMining) ∧
    ((¬ ∀ m ∈ f.miners, m.stopped = true) →
      (f.miningProgress now).1.miners = f.miners ∧
      (f.miningProgress now).1.isMining = f.isMining) := by
  have hiff := deadCondition_iff f.miners
  obtain ⟨hpm, hpi⟩ := miningProgress_pool f now
  by_cases hc : f.miners.length = (f.miners.filter (fun m => m.stopped)).length ∧
      (f.miners.filter (fun m => m.stopped)).length ≠ 0
  · have hrhs := hiff.mp hc
    have hdet : f.DetectDeadMiners = (f.internalStop, true) := by
      simp [Farm.DetectDeadMiners, hc]
    refine ⟨?_, ?_, ?_, ?_, ?_, ?_⟩
    · rw [hdet]
      exact ⟨fun _ => hrhs, fun _ => rfl⟩
    · intro hM _
      rw [hdet]
      simp [Farm.internalStop, hM]
    · intro hnil
      exact absurd hnil (fun h => hrhs.1 h)
    · intro hM _ _
      rw [hpm, hpi, if_pos hc, if_pos hc]
      simp [Farm.internalStop, hM]
    · intro hnil
      exact absurd hnil (fun h => hrhs.1 h)
    · intro hns
      exact absurd hrhs.2 hns
  · have hrhs := fun h => hc (hiff.mpr h)
    have hdet : f.DetectDeadMiners = (f, false) := by
      simp only [Farm.DetectDeadMiners]
      rw [if_neg hc]
    have hdet2 : (f.DetectDeadMiners).2 = false := by rw [hdet]
    refine ⟨?_, ?_, ?_, ?_, ?_, ?_⟩
    · rw [hdet2]
      exact iff_of_false Bool.false_ne_true hrhs
    · intro _ h
      rw [hdet2] at h
      exact absurd h Bool.false_ne_true
    · intro _
      exact hdet
    · intro _ hne hall
      exact absurd ⟨hne, hall⟩ hrhs
    · intro hnil
      rw [hpm, hpi, if_neg hc, if_neg hc]
      exact ⟨hnil, rfl⟩
    · intro _
      rw [hpm, hpi, if_neg hc, if_neg hc]
      exact ⟨rfl, rfl⟩

/-- A mining farm whose single worker is stopped (total pool death). -/
def c6DeadFarm : Farm :=
  { freshFarm with miners := [mkStoppedMiner 0], isMining := true }

/-- A mining farm with one live and one stopped worker (some but not all dead). -/
def c6LiveFarm : Farm :=
  { freshFarm with miners := [mkMiner 0 5, mkStoppedMiner 1], isMining := true }

/-- C6 witness: the dead-miner theorem instantiated on a fully-dead pool, an
empty pool and a pool that still has a live worker. -/
theorem detectDeadMiners_witness :
    (c6DeadFarm.DetectDeadMiners).2 = true ∧
    (c6DeadFarm.DetectDeadMiners).1.miners = [] ∧
    (c6DeadFarm.DetectDeadMiners).1.isMining = false ∧
    (freshFarm.DetectDeadMiners).2 = false ∧
    (c6DeadFarm.miningProgress 1000).1.miners = [] ∧
    (c6DeadFarm.miningProgress 1000).1.isMining = false ∧
    (c6LiveFarm.miningProgress 1000).1.miners = c6LiveFarm.miners ∧
    (c6LiveFarm.miningProgress 1000).1.isMining = true := by
  have hd := detectDeadMiners_spec c6DeadFarm 1000
  have hl := detectDeadMiners_spec c6LiveFarm 1000
  have hf := detectDeadMiners_spec freshFarm 1000
  have htrue : (c6DeadFarm.DetectDeadMiners).2 = true := hd.1.mpr (by decide)
  have htear := hd.2.1 rfl htrue
  have hprog := hd.2.2.2.1 rfl (by decide) (by decide)
  have hlive := hl.2.2.2.2.2 (by decide)
  have hempty : (freshFarm.DetectDeadMiners).2 = false := by
    rw [hf.2.2.1 rfl]
  exact ⟨htrue, htear.1, htear.2, hempty, hprog.1, hprog.2, hlive.1, hlive.2⟩

/-! ## Claim C7 -/

/-- C7: `start` on a farm that is already mining, or whose pool is non-empty,
returns success and neither constructs nor registers any worker; hence two
consecutive `start` calls (no intervening `stop`) both return success and the
second leaves the pool exactly as the first built it. -/
theorem start_idempotent_spec (f : Farm) (gpus gpus2 : List GpuInfo) (ex : Bool) :
    (f.isMining = true ∨ f.miners ≠ [] →
      (f.start gpus ex).2 = true ∧
      (f.start gpus ex).1.miners = f.miners ∧
      (f.start gpus ex).1.isMining = f.isMining ∧
      (f.start gpus ex).1.exited = f.exited) ∧
    ((f.start gpus false).2 = true) ∧
    ((f.start gpus false).1.isMining = true →
      ((f.start gpus false).1.start gpus2 ex).2 = true ∧
      ((f.start gpus false).1.start gpus2 ex).1.miners = (f.start gpus false).1.miners) := by
  have hguard : ∀ (f2 : Farm) (gs : List GpuInfo) (e : Bool),
      f2.isMining = true ∨ f2.miners ≠ [] →
      (f2.start gs e).2 = true ∧ (f2.start gs e).1.miners = f2.miners ∧
      (f2.start gs e).1.isMining = f2.isMining ∧ (f2.start gs e).1.exited = f2.exited := by
    intro f2 gs e h
    by_cases hm : f2.isMining = true
    · unfold Farm.start
      simp [hm]
    · have hne : f2.miners ≠ [] := h.resolve_left hm
      have hb : f2.isMining = false := by
        cases hmm : f2.isMining
        · rfl
        · exact absurd hmm hm
      have hie : f2.miners.isEmpty = false := by
        cases hml : f2.miners with
        | nil => exact absurd hml hne
        | cons a l => rfl
      unfold Farm.start
      simp [hb, hie]
  have hret : (f.start gpus false).2 = true := by
    by_cases hm : f.isMining = true
    · unfold Farm.start
      simp [hm]
    · have hb : f.isMining = false := by
        cases hmm : f.isMining
        · rfl
        · exact absurd hmm hm
      unfold Farm.start
      simp only [hb, Bool.false_eq_true, if_false, Bool.false_and, Bool.and_false]
      by_cases hie : f.miners.isEmpty = false
      · simp [hie]
      · have hie2 : f.miners.isEmpty = true := by
          cases hv : f.miners.isEmpty
          · exact absurd hv hie
          · rfl
        simp only [hie2]
        split <;> first
          | rfl
          | (split <;> rfl)
  refine ⟨hguard f gpus ex, hret, ?_⟩
  intro hM
  have h2 := hguard (f.start gpus false).1 gpus2 ex (Or.inl hM)
  exact ⟨h2.1, h2.2.1⟩

/-- A single enabled CPU device inventory entry. -/
def cpuGpuInfo : GpuInfo :=
  { enabled := true, initialized := true, isNvidia := false, isAmd := false,
    isCpu := true, deviceID := 0 }

/-- C7 witness: starting a fresh farm over one enabled CPU device succeeds and
marks it mining; a second `start` with no intervening `stop` also succeeds and
leaves the pool untouched. -/
theorem start_idempotent_witness :
    (freshFarm.start [cpuGpuInfo] false).1.isMining = true ∧
    (freshFarm.start [cpuGpuInfo] false).2 = true ∧
    ((freshFarm.start [cpuGpuInfo] false).1.start [cpuGpuInfo] false).2 = true ∧
    ((freshFarm.start [cpuGpuInfo] false).1.start [cpuGpuInfo] false).1.miners =
      (freshFarm.start [cpuGpuInfo] false).1.miners := by
  have h := start_idempotent_spec freshFarm [cpuGpuInfo] [cpuGpuInfo] false
  have hM : (freshFarm.start [cpuGpuInfo] false).1.isMining = true := by decide
  exact ⟨hM, h.2.1, (h.2.2 hM).1, (h.2.2 hM).2⟩

/-! ## Claim C8 -/

/-- Operation `internalStop` never touches the farm-data block. -/
theorem internalStop_farmData (f : Farm) : f.internalStop.farmData = f.farmData := by
  unfold Farm.internalStop
  split <;> rfl

/-- The peak store after `miningProgress` is the merge of the previous store
with the snapshot rates. -/
theorem miningProgress_peak (f : Farm) (now : Nat) :
    (f.miningProgress now).1.farmData.minersHasheRatePeak =
      peakMerge f.farmData.minersHasheRatePeak
        (f.miners.map (fun m => minerRate m.hashCount (dtOf f now))) := by
  unfold Farm.miningProgress
  dsimp only
  split
  · rw [internalStop_farmData]
  · rfl

/-- Pointwise max-merging never decreases a stored entry when the lengths
agree. -/
theorem getD_le_zipWith_max (a : List Nat) :
    ∀ (b : List Nat), a.length = b.length → ∀ i : Nat,
      a.getD i 0 ≤ (List.zipWith max a b).getD i 0 := by
  induction a with
  | nil => intro b _ i; simp
  | cons x xs ih =>
    intro b hb i
    cases b with
    | nil => simp at hb
    | cons y ys =>
      cases i with
      | zero => exact le_max_left x y
      | succ j =>
        have hb2 : xs.length = ys.length := by simpa using hb
        exact ih ys hb2 j

/-- Operation `peakMerge` keeps every entry at least as large as the old store when the
snapshot has the same number of workers. -/
theorem getD_le_peakMerge (a b : List Nat) (h : a.length = b.length) (i : Nat) :
    a.getD i 0 ≤ (peakMerge a b).getD i 0 := by
  unfold peakMerge
  rw [if_neg (by omega)]
  exact getD_le_zipWith_max a b h i

/-- The farm whose snapshot shows one worker at 100 kH/s. -/
def c8FarmOne : Farm :=
  { freshFarm with miners := [mkMiner 0 100000], lastProgressTime := 1000 }

/-- The state after the first snapshot: peak store seeded at [100000]. -/
def c8AfterFirst : Farm := (c8FarmOne.miningProgress 2000).1

/-- The same farm after a restart with a different device set: two workers at
1 kH/s each. -/
def c8FarmTwo : Farm :=
  { c8AfterFirst with miners := [mkMiner 0 1000, mkMiner 1 1000] }

/-- The state after the second snapshot. -/
def c8AfterSecond : Farm := (c8FarmTwo.miningProgress 3000).1

/-- C8 counterexample: across a snapshot taken with a different worker count,
the size-mismatch branch clears the peak store to zeros before merging, so
worker position 0's recorded peak drops from 100000 to 1000 — the peak is not
non-decreasing across every sequence of `miningProgress` snapshots. -/
theorem peakStore_counterexample :
    c8AfterFirst.farmData.minersHasheRatePeak = [100000] ∧
    c8AfterSecond.farmData.minersHasheRatePeak = [1000, 1000] ∧
    ¬ (c8AfterFirst.farmData.minersHasheRatePeak.getD 0 0 ≤
        c8AfterSecond.farmData.minersHasheRatePeak.getD 0 0) := by
  refine ⟨by decide, by decide, by decide⟩

/-- C8 (amended): for every worker position, the persisted peak is
non-decreasing across `miningProgress` snapshots as long as the worker count
matches the size of the peak store (the unchanged-worker-set case); on a size
mismatch the store is cleared and re-seeded from the current snapshot. -/
theorem peakStore_monotone_spec (f : Farm) (now i : Nat)
    (hlen : f.farmData.minersHasheRatePeak.length = f.miners.length) :
    f.farmData.minersHasheRatePeak.getD i 0 ≤
      (f.miningProgress now).1.farmData.minersHasheRatePeak.getD i 0 := by
  rw [miningProgress_peak]
  apply getD_le_peakMerge
  rw [hlen, List.length_map]

/-- The C8 witness farm: one worker, peak store seeded at [5]. -/
def c8WitnessFarm : Farm :=
  { freshFarm with
      miners := [mkMiner 0 7000],
      farmData := { freshFarm.farmData with minersHasheRatePeak := [5] },
      lastProgressTime := 1000 }

/-- C8 witness: with a matching store size, the stored peak at position 0 does
not decrease across a snapshot. -/
theorem peakStore_monotone_witness :
    c8WitnessFarm.farmData.minersHasheRatePeak.length = c8WitnessFarm.miners.length ∧
    c8WitnessFarm.farmData.minersHasheRatePeak.getD 0 0 ≤
      (c8WitnessFarm.miningProgress 2000).1.farmData.minersHasheRatePeak.getD 0 0 :=
  ⟨by decide, peakStore_monotone_spec c8WitnessFarm 2000 0 (by decide)⟩

/-! ## Claim C9 -/

/-- Registering a fresh record always leaves an in-flight entry under its
submission id, whether the map insert overwrote or appended. -/
theorem mapInsert_any_key_incomplete (id : Nat) (s : List (Nat × Bool)) :
    ((mapInsert id false s).any fun r => r.1 == id && !r.2) = true := by
  unfold mapInsert
  split
  · next h =>
    rw [List.any_eq_true] at h ⊢
    obtain ⟨x, hx, hkey⟩ := h
    refine ⟨(x.1, false), List.mem_map.mpr ⟨x, hx, by rw [if_pos hkey]⟩, by simp [hkey]⟩
  · rw [List.any_eq_true]
    exact ⟨(id, false), List.mem_append_right _ (List.mem_singleton.mpr rfl), by simp⟩

/-- The purge filter keeps every in-flight entry. -/
theorem purgeFilter_keeps_incomplete (id : Nat) (l : List (Nat × Bool))
    (h : (l.any fun r => r.1 == id && !r.2) = true) :
    ((l.filter fun r => !r.2).any fun r => r.1 == id && !r.2) = true := by
  rw [List.any_eq_true] at h ⊢
  obtain ⟨x, hx, hp⟩ := h
  rw [Bool.and_eq_true] at hp
  exact ⟨x, List.mem_filter.mpr ⟨hx, hp.2⟩, by rw [Bool.and_eq_true]; exact hp⟩

/-- Marking completes the entry under the given id whenever one is present. -/
theorem markSubmitterComplete_any (id : Nat) (l : List (Nat × Bool))
    (h : (l.any fun r => r.1 == id) = true) :
    ((markSubmitterComplete id l).any fun r => r.1 == id && r.2) = true := by
  unfold markSubmitterComplete
  rw [List.any_eq_true] at h ⊢
  obtain ⟨x, hx, hkey⟩ := h
  exact ⟨(x.1, true), List.mem_map.mpr ⟨x, hx, by rw [if_pos hkey]⟩, by simp [hkey]⟩

/-- After marking an id complete, the next purge pass leaves no record under
that id. -/
theorem purge_after_mark (id : Nat) (l : List (Nat × Bool)) :
    (((markSubmitterComplete id l).filter fun r => !r.2).all fun r => !(r.1 == id)) = true := by
  rw [List.all_eq_true]
  intro r hr
  rw [List.mem_filter] at hr
  obtain ⟨hmem, hflag⟩ := hr
  unfold markSubmitterComplete at hmem
  rw [List.mem_map] at hmem
  obtain ⟨x, _, hgx⟩ := hmem
  by_cases hk : (x.1 == id) = true
  · rw [if_pos hk] at hgx
    rw [← hgx] at hflag
    simp at hflag
  · rw [if_neg hk] at hgx
    rw [← hgx]
    simp [hk]

/-- The dispatch thread's tail marks the record complete regardless of what
the acceptor callback returned. -/
theorem submitThreadFinish_submiters (g : Farm) (onS : Solution → Except String Unit)
    (sol : Solution) (id : Nat) :
    (g.submitThreadFinish onS sol id).submiters = markSubmitterComplete id g.submiters := by
  unfold Farm.submitThreadFinish
  cases onS sol <;> rfl

/-- C9: when the acceptor callback raises, the failure never reaches the
caller of `submitProof` — the dispatched path contains it and behaves exactly
as with any other acceptor — and the submission record is still registered
in-flight, marked complete by the dispatched path, and reclaimed by the next
purge pass. -/
theorem submitProof_containment_spec (f : Farm) (sol : Solution)
    (onSol : Solution → Except String Unit) (e : String)
    (_herr : onSol sol = Except.error e) :
    ((f.submitProof sol).submiters.any
        (fun r => r.1 == (f.submitProof sol).submitID && !r.2) = true) ∧
    (∀ onSol2 : Solution → Except String Unit,
      (f.submitProof sol).submitThreadFinish onSol sol (f.submitProof sol).submitID =
        (f.submitProof sol).submitThreadFinish onSol2 sol (f.submitProof sol).submitID) ∧
    (((f.submitProof sol).submitThreadFinish onSol sol
        (f.submitProof sol).submitID).submiters.any
        (fun r => r.1 == (f.submitProof sol).submitID && r.2) = true) ∧
    ((((f.submitProof sol).submitThreadFinish onSol sol
        (f.submitProof sol).submitID).PurgeThreadInternal).submiters.all
        (fun r => !(r.1 == (f.submitProof sol).submitID)) = true) := by
  have hsub : (f.submitProof sol).submiters =
      (mapInsert ((f.submitID + 1) % 2 ^ 32) false f.submiters).filter (fun r => !r.2) := rfl
  have hid : (f.submitProof sol).submitID = (f.submitID + 1) % 2 ^ 32 := rfl
  have hreg : ((f.submitProof sol).submiters.any
      (fun r => r.1 == (f.submitProof sol).submitID && !r.2)) = true := by
    rw [hsub, hid]
    exact purgeFilter_keeps_incomplete _ _ (mapInsert_any_key_incomplete _ _)
  refine ⟨hreg, ?_, ?_, ?_⟩
  · intro onSol2
    unfold Farm.submitThreadFinish
    cases onSol sol <;> cases onSol2 sol <;> rfl
  · rw [submitThreadFinish_submiters]
    apply markSubmitterComplete_any
    rw [List.any_eq_true] at hreg ⊢
    obtain ⟨x, hx, hp⟩ := hreg
    rw [Bool.and_eq_true] at hp
    exact ⟨x, hx, hp.1⟩
  · have hp : (((f.submitProof sol).submitThreadFinish onSol sol
        (f.submitProof sol).submitID).PurgeThreadInternal).submiters =
        ((markSubmitterComplete (f.submitProof sol).submitID
          (f.submitProof sol).submiters).filter fun r => !r.2) := by
      unfold Farm.PurgeThreadInternal
      rw [submitThreadFinish_submiters]
    rw [hp]
    exact purge_after_mark _ _

/-- C9 witness: the containment theorem at a fresh farm and an acceptor that
always raises. -/
theorem submitProof_containment_witness :
    ((freshFarm.submitProof { deviceIndex := 0, payload := 0 }).submiters.any
        (fun r => r.1 == (freshFarm.submitProof { deviceIndex := 0, payload := 0 }).submitID
          && !r.2) = true) ∧
    (((freshFarm.submitProof { deviceIndex := 0, payload := 0 }).submitThreadFinish
        (fun _ => Except.error "boom") { deviceIndex := 0, payload := 0 }
        (freshFarm.submitProof { deviceIndex := 0, payload := 0 }).submitID).submiters.any
        (fun r => r.1 == (freshFarm.submitProof { deviceIndex := 0, payload := 0 }).submitID
          && r.2) = true) ∧
    ((((freshFarm.submitProof { deviceIndex := 0, payload := 0 }).submitThreadFinish
        (fun _ => Except.error "boom") { deviceIndex := 0, payload := 0 }
        (freshFarm.submitProof { deviceIndex := 0, payload := 0 }).submitID).PurgeThreadInternal).submiters.all
        (fun r => !(r.1 == (freshFarm.submitProof { deviceIndex := 0, payload := 0 }).submitID))
        = true) := by
  have h := submitProof_containment_spec freshFarm { deviceIndex := 0, payload := 0 }
    (fun _ => Except.error "boom") "boom" rfl
  exact ⟨h.1, h.2.2.1, h.2.2.2⟩

/-! ## Claim C10 -/

/-- No miner is allocated from an inventory whose entries are all disabled or
AMD (skipped for lack of a kernel). -/
theorem allocMiners_nil (gpus : List GpuInfo)
    (h : ∀ g ∈ gpus, g.enabled = false ∨ g.isAmd = true) :
    allocMiners gpus = [] := by
  unfold allocMiners
  rw [List.filterMap_eq_nil_iff]
  intro p hp
  have hmem : p.2 ∈ gpus := List.snd_mem_of_mem_enumFrom hp
  cases h p.2 hmem with
  | inl he => simp [he]
  | inr ha => simp [ha]

/-- C10: when `start` proceeds past its double-start guards (not mining, empty
pool) and every inventory entry is disabled or skipped, zero workers are
constructed and the process is fatally terminated with mining still inactive;
moreover `start` never returns with mining marked active over an empty
pool. -/
theorem start_zeroWorkers_fatal_spec (f : Farm) (gpus : List GpuInfo) (ex : Bool)
    (hm : f.isMining = false) (hp : f.miners = []) :
    ((∀ g ∈ gpus, g.enabled = false ∨ g.isAmd = true) →
      (f.start gpus false).1.exited = true ∧
      (f.start gpus false).1.isMining = false) ∧
    ((f.start gpus ex).1.isMining = true → (f.start gpus ex).1.miners ≠ []) := by
  have hie : f.miners.isEmpty = true := by rw [hp]; rfl
  constructor
  · intro hall
    have hnil := allocMiners_nil gpus hall
    unfold Farm.start
    simp [hm, hie, hnil]
  · intro hM
    unfold Farm.start at hM ⊢
    by_cases hex : (ex && !gpus.isEmpty) = true
    · simp [hm, hie, hex] at hM
    · by_cases hz : allocMiners gpus = []
      · simp [hm, hie, hex, hz] at hM
      · simp [hm, hie, hex, hz, Farm.resetTimer]

/-- The C10 witness inventory: one disabled device and one enabled AMD device
(skipped for lack of a kernel) — zero workers constructible. -/
def c10Gpus : List GpuInfo :=
  [{ enabled := false, initialized := false, isNvidia := false, isAmd := false,
     isCpu := true, deviceID := 0 },
   { enabled := true, initialized := true, isNvidia := false, isAmd := true,
     isCpu := false, deviceID := 1 }]

/-- C10 witness: starting a fresh farm over an inventory that yields zero
workers trips the fatal exit with mining still inactive. -/
theorem start_zeroWorkers_fatal_witness :
    freshFarm.isMining = false ∧ freshFarm.miners = [] ∧
    (freshFarm.start c10Gpus false).1.exited = true ∧
    (freshFarm.start c10Gpus false).1.isMining = false := by
  have h := start_zeroWorkers_fatal_spec freshFarm c10Gpus false rfl rfl
  have h2 := h.1 (by decide)
  exact ⟨rfl, rfl, h2.1, h2.2⟩

end RhminerFarm
